import Mathlib

/-!
Shallow embedding of the SELCIE chameleon field solver
(`src/Main/SolverChameleon.py`, class `FieldSolver`).

Numeric values are modelled as exact rationals.  The discretization
backend (FEniCS/dolfin) is modelled abstractly: a `Backend` carries the
assembled matrices and the assembly and linear-solve operations the
solver calls; the solver code itself (loop structure, relaxation
update, stopping rule, caching, probing, vertex scan) is translated
directly from the Python source.
-/

namespace SELCIE

/-- Solver configuration and derived attributes set in `FieldSolver.__init__`
(lines 46-49, 84, 100-103): `alpha`, `n`, `relaxation_parameter`, `tol_du`,
`tol_rel_du`, `maxiter`, and the derived initial-guess value
`field_min = density_max ** (-1/(n+1))` (line 84). -/
structure SolverConfig where
  alpha : ℚ
  n : ℕ
  relaxation_parameter : ℚ
  tol_du : ℚ
  tol_rel_du : ℚ
  maxiter : ℕ
  field_min : ℚ

/-- The discretization backend (dolfin), abstracted.  `m` is the number of
degrees of freedom of the scalar function space `V`.  `M` is the mass matrix
`self.A = assemble(u*v*sym*dx)` (line 97), `A0` the stiffness matrix
`assemble(dot(grad(u),grad(v))*sym*dx)` (lines 138-139), `P` the density
source vector `assemble(p*v*sym*dx)` (line 96).  `assembleA1` is the call
`assemble((n+1)*field**(-n-2)*u*v*sym*dx)` (lines 148-149), `assembleBpicard`
the call `assemble((n+2)*field**(-n-1)*v*sym*dx)` (lines 150-151),
`assembleBnewton` the call
`assemble((-alpha*dot(grad(field),grad(v)) + field**(-n-1)*v)*sym*dx)`
(lines 205-208), each a function of the current field coefficient vector.
`linSolve A b` is `KrylovSolver.solve(A, x, b)` writing the solution into
`x`. -/
structure Backend (m : ℕ) where
  M : Matrix (Fin m) (Fin m) ℚ
  A0 : Matrix (Fin m) (Fin m) ℚ
  P : Fin m → ℚ
  assembleA1 : (Fin m → ℚ) → Matrix (Fin m) (Fin m) ℚ
  assembleBpicard : (Fin m → ℚ) → (Fin m → ℚ)
  assembleBnewton : (Fin m → ℚ) → (Fin m → ℚ)
  linSolve : Matrix (Fin m) (Fin m) ℚ → (Fin m → ℚ) → (Fin m → ℚ)

/-- The infinity norm `d.norm(vec, 'linf')` of a coefficient vector
(lines 158, 213). -/
def linf {m : ℕ} (v : Fin m → ℚ) : ℚ :=
  (List.ofFn (fun i => |v i|)).foldr max 0

/-- One iteration of the Picard loop body (lines 146-158): assemble `A1` and
`B` from the current field, solve `(alpha*A0 + A1) u = B - P`, record
`du = u - field`, and blend `field <- theta*u + (1-theta)*field`.  Returns
the updated field and `du_norm`. -/
def picardStep {m : ℕ} (be : Backend m) (cfg : SolverConfig)
    (phi : Fin m → ℚ) : (Fin m → ℚ) × ℚ :=
  let A1 := be.assembleA1 phi
  let B := be.assembleBpicard phi
  let u := be.linSolve (cfg.alpha • be.A0 + A1) (fun j => B j - be.P j)
  let du := fun j => u j - phi j
  let phi2 := fun j => cfg.relaxation_parameter * u j +
    (1 - cfg.relaxation_parameter) * phi j
  (phi2, linf du)

/-- The Picard outer loop `while du_norm > tol_du and i < maxiter`
(lines 143-158).  `fuel` is the number of iterations still allowed
(`maxiter - i`), `i` the iteration counter, `dn` the running `du_norm`.
Returns the final field, final `du_norm` and iteration count. -/
def picardGo {m : ℕ} (be : Backend m) (cfg : SolverConfig) :
    ℕ → (Fin m → ℚ) → ℚ → ℕ → (Fin m → ℚ) × ℚ × ℕ
  | 0, phi, dn, i => (phi, dn, i)
  | fuel + 1, phi, dn, i =>
    if cfg.tol_du < dn then
      let s := picardStep be cfg phi
      picardGo be cfg fuel s.1 s.2 (i + 1)
    else (phi, dn, i)

/-- `FieldSolver.picard` (lines 107-161): initialize the field to the uniform
constant `field_min` (line 141, interpolation of a constant onto the Lagrange
space gives the constant coefficient vector), set `i = 0`, `du_norm = 1`, and
run the outer loop.  The method always returns normally; the triple is the
final field together with the final `du_norm` and the number of iterations
executed (one backend linear solve per iteration). -/
def picardRun {m : ℕ} (be : Backend m) (cfg : SolverConfig) :
    (Fin m → ℚ) × ℚ × ℕ :=
  picardGo be cfg cfg.maxiter (fun _ => cfg.field_min) 1 0

/-- One iteration of the Newton loop body (lines 201-213): assemble `A1` and
`B` from the current field, solve `(alpha*A0 + A1) du = B - P` for the
increment, update `field <- field + theta*du`, and take `du_norm` of the
unrelaxed increment. -/
def newtonStep {m : ℕ} (be : Backend m) (cfg : SolverConfig)
    (phi : Fin m → ℚ) : (Fin m → ℚ) × ℚ :=
  let A1 := be.assembleA1 phi
  let B := be.assembleBnewton phi
  let du := be.linSolve (cfg.alpha • be.A0 + A1) (fun j => B j - be.P j)
  let phi2 := fun j => phi j + cfg.relaxation_parameter * du j
  (phi2, linf du)

/-- The Newton outer loop `while du_norm > tol_du and i < maxiter`
(lines 198-213), same shape as `picardGo`. -/
def newtonGo {m : ℕ} (be : Backend m) (cfg : SolverConfig) :
    ℕ → (Fin m → ℚ) → ℚ → ℕ → (Fin m → ℚ) × ℚ × ℕ
  | 0, phi, dn, i => (phi, dn, i)
  | fuel + 1, phi, dn, i =>
    if cfg.tol_du < dn then
      let s := newtonStep be cfg phi
      newtonGo be cfg fuel s.1 s.2 (i + 1)
    else (phi, dn, i)

/-- `FieldSolver.newton` (lines 163-216): initialize the field to the uniform
constant `field_min` (line 196) and run the Newton outer loop. -/
def newtonRun {m : ℕ} (be : Backend m) (cfg : SolverConfig) :
    (Fin m → ℚ) × ℚ × ℕ :=
  newtonGo be cfg cfg.maxiter (fun _ => cfg.field_min) 1 0

/-!
Derived-field cache layer.  The mutable attributes set to `None` in
`__init__` lines 87-93 form the cache; `solveCount` instruments the
number of backend linear-solve calls issued (the spec proposes exactly
this counter as the observation of recomputation).  Vector-field
coefficient vectors are modelled over the same DOF index type.
-/

/-- The solver object state relevant to the derived-field cache:
the optional slots `field`, `field_grad_mag`, `residual`, `laplacian`,
`potential_derivative`, `field_grad`, `p_field` (lines 87-93), plus an
instrumentation counter of backend `KrylovSolver.solve` calls. -/
structure CacheState (m : ℕ) where
  field : Option (Fin m → ℚ)
  field_grad : Option (Fin m → ℚ)
  field_grad_mag : Option (Fin m → ℚ)
  residual : Option (Fin m → ℚ)
  laplacian : Option (Fin m → ℚ)
  potential_derivative : Option (Fin m → ℚ)
  p_field : Option (Fin m → ℚ)
  solveCount : ℕ
deriving DecidableEq

/-- Backend operations used by the `calc_*` methods, each the composition
assemble-right-hand-side-then-mass-matrix-solve for the corresponding
expression: `gradSolve` for lines 250-256, `gradMagSolve` for lines 291-296,
`residualSolve` (a function of `field` and `field_grad`) for lines 335-341,
`laplacianSolve` (a function of `field_grad`) for line 376-379,
`potDerivSolve` for lines 431-434, and `interpolateP` for the direct
interpolation `d.interpolate(self.p, self.V)` of line 394 (no linear
solve). -/
structure CalcBackend (m : ℕ) where
  gradSolve : (Fin m → ℚ) → (Fin m → ℚ)
  gradMagSolve : (Fin m → ℚ) → (Fin m → ℚ)
  residualSolve : (Fin m → ℚ) → (Fin m → ℚ) → (Fin m → ℚ)
  laplacianSolve : (Fin m → ℚ) → (Fin m → ℚ)
  potDerivSolve : (Fin m → ℚ) → (Fin m → ℚ)
  interpolateP : Fin m → ℚ

/-- The effect of `self.picard()` on the cache state: the field slot is
replaced by the Picard result and one backend linear solve is issued per
outer iteration.  No other cache slot is touched (a fresh solve does not
clear previously cached derived slots). -/
def picardOp {m : ℕ} (be : Backend m) (cfg : SolverConfig)
    (s : CacheState m) : CacheState m :=
  let r := picardRun be cfg
  { s with field := some r.1, solveCount := s.solveCount + r.2.2 }

/-- `FieldSolver.calc_field_grad_vector` (lines 218-258): if `field` is
`None` run `picard()` (lines 241-242), then unconditionally issue one
backend solve for the gradient projection and store it in `field_grad`
(lines 255-256). -/
def calc_field_grad_vector {m : ℕ} (be : Backend m) (cb : CalcBackend m)
    (cfg : SolverConfig) (s : CacheState m) : CacheState m :=
  let s1 := if s.field = none then picardOp be cfg s else s
  { s1 with
    field_grad := some (cb.gradSolve (s1.field.getD (fun _ => 0)))
    solveCount := s1.solveCount + 1 }

/-- `FieldSolver.calc_field_grad_mag` (lines 260-298): if `field` is `None`
run `picard()` (lines 282-283), then unconditionally issue one backend solve
and store the result in `field_grad_mag` (lines 295-296). -/
def calc_field_grad_mag {m : ℕ} (be : Backend m) (cb : CalcBackend m)
    (cfg : SolverConfig) (s : CacheState m) : CacheState m :=
  let s1 := if s.field = none then picardOp be cfg s else s
  { s1 with
    field_grad_mag := some (cb.gradMagSolve (s1.field.getD (fun _ => 0)))
    solveCount := s1.solveCount + 1 }

/-- `FieldSolver.calc_field_residual` (lines 300-343): if `field` is `None`
run `picard()` (lines 323-324); if `field_grad` is `None` run
`calc_field_grad_vector()` (lines 326-327); then issue one backend solve and
store the result in `residual` (lines 340-341). -/
def calc_field_residual {m : ℕ} (be : Backend m) (cb : CalcBackend m)
    (cfg : SolverConfig) (s : CacheState m) : CacheState m :=
  let s1 := if s.field = none then picardOp be cfg s else s
  let s2 := if s1.field_grad = none then
    calc_field_grad_vector be cb cfg s1 else s1
  { s2 with
    residual := some (cb.residualSolve (s2.field.getD (fun _ => 0))
      (s2.field_grad.getD (fun _ => 0)))
    solveCount := s2.solveCount + 1 }

/-- `FieldSolver.calc_laplacian` (lines 345-381): if `field_grad` is `None`
run `calc_field_grad_vector()` (lines 367-368) — note there is no direct
check of `field` here — then issue one backend solve and store the result in
`laplacian` (lines 378-379). -/
def calc_laplacian {m : ℕ} (be : Backend m) (cb : CalcBackend m)
    (cfg : SolverConfig) (s : CacheState m) : CacheState m :=
  let s1 := if s.field_grad = none then
    calc_field_grad_vector be cb cfg s else s
  { s1 with
    laplacian := some (cb.laplacianSolve (s1.field_grad.getD (fun _ => 0)))
    solveCount := s1.solveCount + 1 }

/-- `FieldSolver.calc_density_field` (lines 383-396): interpolate the density
profile onto `V` and store it in `p_field`.  There is no check of `field`
and no backend linear solve in this method. -/
def calc_density_field {m : ℕ} (cb : CalcBackend m)
    (s : CacheState m) : CacheState m :=
  { s with p_field := some cb.interpolateP }

/-- `FieldSolver.calc_potential_derivative` (lines 398-436): if `field` is
`None` run `picard()` (lines 422-423), then issue one backend solve and store
the result in `potential_derivative` (lines 433-434). -/
def calc_potential_derivative {m : ℕ} (be : Backend m) (cb : CalcBackend m)
    (cfg : SolverConfig) (s : CacheState m) : CacheState m :=
  let s1 := if s.field = none then picardOp be cfg s else s
  { s1 with
    potential_derivative :=
      some (cb.potDerivSolve (s1.field.getD (fun _ => 0)))
    solveCount := s1.solveCount + 1 }

/-- The guarded access pattern for `field_grad` used at the call sites
`calc_field_residual` lines 326-327 and `calc_laplacian` lines 367-368:
compute the slot only when it is `None`. -/
def ensure_field_grad {m : ℕ} (be : Backend m) (cb : CalcBackend m)
    (cfg : SolverConfig) (s : CacheState m) : CacheState m :=
  if s.field_grad = none then calc_field_grad_vector be cb cfg s else s

/-- The guarded access pattern for `field_grad_mag` used at the call sites
`measure_fifth_force` lines 465-466 and `plot_results` lines 533-534. -/
def ensure_field_grad_mag {m : ℕ} (be : Backend m) (cb : CalcBackend m)
    (cfg : SolverConfig) (s : CacheState m) : CacheState m :=
  if s.field_grad_mag = none then calc_field_grad_mag be cb cfg s else s

/-- The guarded access pattern for `residual` used at the call sites
`plot_results` lines 561-562 and `plot_residual_slice` lines 747-748. -/
def ensure_residual {m : ℕ} (be : Backend m) (cb : CalcBackend m)
    (cfg : SolverConfig) (s : CacheState m) : CacheState m :=
  if s.residual = none then calc_field_residual be cb cfg s else s

/-- The guarded access pattern for `laplacian` used at the call sites
`plot_results` lines 587-588 and `plot_residual_slice` lines 750-751. -/
def ensure_laplacian {m : ℕ} (be : Backend m) (cb : CalcBackend m)
    (cfg : SolverConfig) (s : CacheState m) : CacheState m :=
  if s.laplacian = none then calc_laplacian be cb cfg s else s

/-- The guarded access pattern for `potential_derivative` used at the call
sites `plot_results` lines 615-616 and `plot_residual_slice` lines
753-754. -/
def ensure_potential_derivative {m : ℕ} (be : Backend m) (cb : CalcBackend m)
    (cfg : SolverConfig) (s : CacheState m) : CacheState m :=
  if s.potential_derivative = none then
    calc_potential_derivative be cb cfg s else s

/-- The guarded access pattern for `p_field` used at the call sites
`plot_results` lines 642-643 and `plot_residual_slice` lines 756-757. -/
def ensure_p_field {m : ℕ} (cb : CalcBackend m)
    (s : CacheState m) : CacheState m :=
  if s.p_field = none then calc_density_field cb s else s

/-!
Field prober `FieldSolver.probe_function` (lines 669-719).  Points are
lists of rationals; the probed function is an arbitrary map from points
to values.  The comparison `radius_distence < radial_limit` of a
nonnegative Euclidean norm against the limit is embedded exactly by
comparing squares: for `s ≥ 0`, `s < L` holds iff `0 < L` and
`s^2 < L^2`; the loop state variable `rsq` holds the square of the
`radius_distence` variable (whose initial value is the literal `0`,
line 705, not the norm of the origin). -/

/-- The point `gradient_vector*displacement + origin` (lines 710, 716)
at integer step `k`. -/
def probePoint (g o : List ℚ) (k : ℕ) : List ℚ :=
  List.zipWith (fun gi oi => gi * (k : ℚ) + oi) g o

/-- Squared Euclidean norm of a point, embedding `np.linalg.norm(v)`
(line 717) squared. -/
def sqnorm (v : List ℚ) : ℚ := (v.map (fun x => x ^ 2)).sum

/-- The sampling loop of `probe_function` (lines 712-717), fuelled:
`while radius_distence < radial_limit: values.append(function(v));
displacement += 1; v = gradient_vector*displacement + origin;
radius_distence = norm(v)`.  `k` is `displacement`, `rsq` the square of
`radius_distence`, `acc` the accumulated `values`.  `none` means the loop
has not terminated within `fuel` passes. -/
def probeGo (f : List ℚ → ℚ) (g o : List ℚ) (limit : ℚ) :
    ℕ → ℕ → ℚ → List ℚ → Option (List ℚ)
  | 0, _, _, _ => none
  | fuel + 1, k, rsq, acc =>
    if 0 < limit ∧ rsq < limit ^ 2 then
      probeGo f g o limit fuel (k + 1) (sqnorm (probePoint g o (k + 1)))
        (acc ++ [f (probePoint g o k)])
    else some acc

/-- Outcome of a `probe_function` call: either the early return `None` after
the dimension check fails (lines 696-703, which prints a message and returns
without taking any sample), or the sampled values `np.array(values)`
(line 719). -/
inductive ProbeOutcome where
  | dimMismatch : ProbeOutcome
  | result : List ℚ → ProbeOutcome
deriving DecidableEq

/-- `FieldSolver.probe_function` (lines 669-719): check that
`gradient_vector` and `origin` both have length `mesh_dimension`
(lines 696-697); on mismatch return the error outcome having evaluated
`function` at no point; otherwise run the sampling loop from
`displacement = 0`, `radius_distence = 0` (lines 705-706).  The outer
`none` means the sampling loop itself never terminates. -/
def probe_function (fuel : ℕ) (meshDim : ℕ) (f : List ℚ → ℚ)
    (gradient_vector origin : List ℚ) (radial_limit : ℚ) :
    Option ProbeOutcome :=
  if gradient_vector.length ≠ meshDim ∨ origin.length ≠ meshDim then
    some ProbeOutcome.dimMismatch
  else
    (probeGo f gradient_vector origin radial_limit fuel 0 0 []).map
      ProbeOutcome.result

/-!
Extremum locator `FieldSolver.measure_fifth_force` (lines 438-496).
The backend mesh machinery (SubMesh restriction, BoundaryMesh,
BoundingBoxTree) is abstracted: a vertex of the restricted sub-mesh
carries its coordinates, its distance to the exterior boundary as
returned by `bbtree.compute_closest_entity` (line 481), and the value
of `field_grad_mag` at its point (line 485). -/

/-- A vertex of the sub-mesh restricted to the probed subdomain. -/
structure Vertex where
  x : ℚ
  y : ℚ
  z : ℚ
  dist : ℚ
  ffVal : ℚ
deriving DecidableEq

/-- The qualification test of lines 483-484:
`distance > boundary_distance - tol/2 and
distance < boundary_distance + tol/2` — a strict (open) band on both
sides. -/
def vertexQualifies (boundary_distance tol : ℚ) (v : Vertex) : Prop :=
  boundary_distance - tol / 2 < v.dist ∧ v.dist < boundary_distance + tol / 2

instance (bd tol : ℚ) (v : Vertex) : Decidable (vertexQualifies bd tol v) :=
  inferInstanceAs (Decidable (_ ∧ _))

/-- The vertex scan of lines 477-489: fold over the vertices keeping the
running maximum `fifth_force_max` (initialized `0.0`) and `probe_point`
(initialized `None`), updating both only when a qualifying vertex has a
strictly larger `field_grad_mag` value. -/
def measureLoop (bd tol : ℚ) :
    List Vertex → ℚ → Option (ℚ × ℚ × ℚ) → ℚ × Option (ℚ × ℚ × ℚ)
  | [], m, p => (m, p)
  | v :: rest, m, p =>
    if vertexQualifies bd tol v then
      if m < v.ffVal then measureLoop bd tol rest v.ffVal (some (v.x, v.y, v.z))
      else measureLoop bd tol rest m p
    else measureLoop bd tol rest m p

/-- `FieldSolver.measure_fifth_force` (lines 438-496) after the sub-mesh
restriction: scan the vertices; if `probe_point` is still `None` raise
`Exception("No vertex found. Try changing search parameters.")`
(lines 491-493, modelled as `none`); otherwise return
`(fifth_force_max, (x, y, z))` (lines 495-496). -/
def measure_fifth_force (vertices : List Vertex) (boundary_distance tol : ℚ) :
    Option (ℚ × ℚ × ℚ × ℚ) :=
  let r := measureLoop boundary_distance tol vertices 0 none
  match r.2 with
  | none => none
  | some pt => some (r.1, pt)

/-!
Symmetry-weight setup in `FieldSolver.__init__` (lines 57-70). -/

/-- The value stored in `self.sym_factor`: `Expression('abs(x[0])')`,
`Expression('abs(x[1])')`, or `Constant(1)`. -/
inductive SymFactor where
  | absX0 : SymFactor
  | absX1 : SymFactor
  | one : SymFactor
deriving DecidableEq

/-- Outcome of the symmetry dispatch: either `sys.exit()` is called
(lines 64-67), or `self.sym_factor` is assigned, or — for a mesh dimension
other than 2 and 3 — control falls through with `sym_factor` never
assigned. -/
inductive SymSetup where
  | exits : SymSetup
  | weight : SymFactor → SymSetup
  | unset : SymSetup
deriving DecidableEq

/-- The dispatch on `mesh_dimension` and `mesh_symmetry` of lines 57-70:
in 2-D the three recognized tags select the weight and anything else calls
`sys.exit()`; in 3-D the tag is not examined and the weight is the
constant 1. -/
def symSetup (dim : ℕ) (tag : String) : SymSetup :=
  if dim = 2 then
    if tag = "vertical axis-symmetry" then SymSetup.weight SymFactor.absX0
    else if tag = "horizontal axis-symmetry" then
      SymSetup.weight SymFactor.absX1
    else if tag = "cylinder slice" then SymSetup.weight SymFactor.one
    else SymSetup.exits
  else if dim = 3 then SymSetup.weight SymFactor.one
  else SymSetup.unset

/-!  Helper lemmas about the outer iteration loops. -/

theorem picardGo_succ {m : ℕ} (be : Backend m) (cfg : SolverConfig)
    (fuel : ℕ) (phi : Fin m → ℚ) (dn : ℚ) (i : ℕ) :
    picardGo be cfg (fuel + 1) phi dn i =
      if cfg.tol_du < dn then
        picardGo be cfg fuel (picardStep be cfg phi).1
          (picardStep be cfg phi).2 (i + 1)
      else (phi, dn, i) := rfl

theorem newtonGo_succ {m : ℕ} (be : Backend m) (cfg : SolverConfig)
    (fuel : ℕ) (phi : Fin m → ℚ) (dn : ℚ) (i : ℕ) :
    newtonGo be cfg (fuel + 1) phi dn i =
      if cfg.tol_du < dn then
        newtonGo be cfg fuel (newtonStep be cfg phi).1
          (newtonStep be cfg phi).2 (i + 1)
      else (phi, dn, i) := rfl

theorem picardGo_iter_bound {m : ℕ} (be : Backend m) (cfg : SolverConfig) :
    ∀ (fuel : ℕ) (phi : Fin m → ℚ) (dn : ℚ) (i : ℕ),
      (picardGo be cfg fuel phi dn i).2.2 ≤ i + fuel ∧
      (cfg.tol_du < (picardGo be cfg fuel phi dn i).2.1 →
        (picardGo be cfg fuel phi dn i).2.2 = i + fuel)
  | 0, phi, dn, i => ⟨Nat.le_refl _, fun _ => rfl⟩
  | fuel + 1, phi, dn, i => by
    rw [picardGo_succ]
    by_cases h : cfg.tol_du < dn
    · rw [if_pos h]
      have ih := picardGo_iter_bound be cfg fuel
        (picardStep be cfg phi).1 (picardStep be cfg phi).2 (i + 1)
      refine ⟨?_, fun hgt => ?_⟩
      · have := ih.1; omega
      · have := ih.2 hgt; omega
    · rw [if_neg h]
      exact ⟨Nat.le_add_right i (fuel + 1), fun hgt => absurd hgt h⟩

theorem newtonGo_iter_bound {m : ℕ} (be : Backend m) (cfg : SolverConfig) :
    ∀ (fuel : ℕ) (phi : Fin m → ℚ) (dn : ℚ) (i : ℕ),
      (newtonGo be cfg fuel phi dn i).2.2 ≤ i + fuel ∧
      (cfg.tol_du < (newtonGo be cfg fuel phi dn i).2.1 →
        (newtonGo be cfg fuel phi dn i).2.2 = i + fuel)
  | 0, phi, dn, i => ⟨Nat.le_refl _, fun _ => rfl⟩
  | fuel + 1, phi, dn, i => by
    rw [newtonGo_succ]
    by_cases h : cfg.tol_du < dn
    · rw [if_pos h]
      have ih := newtonGo_iter_bound be cfg fuel
        (newtonStep be cfg phi).1 (newtonStep be cfg phi).2 (i + 1)
      refine ⟨?_, fun hgt => ?_⟩
      · have := ih.1; omega
      · have := ih.2 hgt; omega
    · rw [if_neg h]
      exact ⟨Nat.le_add_right i (fuel + 1), fun hgt => absurd hgt h⟩

/-- C2: for both the Picard and the Newton solve, the outer iteration loop
executes at most `maxiter` iterations; both solvers are total functions of
their inputs (they always return the final field normally), and whenever the
returned `du_norm` is still above `tol_du` the loop ran for exactly
`maxiter` iterations — exhausting `maxiter` ends the method normally with
the partially converged field, never with an exception. -/
theorem C2_maxiter_bound_silent {m : ℕ} (be : Backend m) (cfg : SolverConfig) :
    (picardRun be cfg).2.2 ≤ cfg.maxiter ∧
    (cfg.tol_du < (picardRun be cfg).2.1 →
      (picardRun be cfg).2.2 = cfg.maxiter) ∧
    (newtonRun be cfg).2.2 ≤ cfg.maxiter ∧
    (cfg.tol_du < (newtonRun be cfg).2.1 →
      (newtonRun be cfg).2.2 = cfg.maxiter) := by
  have hp := picardGo_iter_bound be cfg cfg.maxiter
    (fun _ => cfg.field_min) 1 0
  have hn := newtonGo_iter_bound be cfg cfg.maxiter
    (fun _ => cfg.field_min) 1 0
  refine ⟨?_, ?_, ?_, ?_⟩
  · simpa [picardRun] using hp.1
  · intro h; simpa [picardRun] using hp.2 (by simpa [picardRun] using h)
  · simpa [newtonRun] using hn.1
  · intro h; simpa [newtonRun] using hn.2 (by simpa [newtonRun] using h)

/-- A configuration with `maxiter = 1` and `tol_du = 1/2`, the non-convergence
scenario of the spec. -/
def cfg1 : SolverConfig :=
  { alpha := 1, n := 0, relaxation_parameter := 1, tol_du := 1/2,
    tol_rel_du := 1/2, maxiter := 1, field_min := 1 }

/-- A one-DOF backend on which neither method converges in one iteration:
every linear solve returns the right-hand side, and the assembled Picard and
Newton right-hand sides keep the update distance at least 1. -/
def be1 : Backend 1 :=
  { M := 1, A0 := 0, P := 0,
    assembleA1 := fun _ => 0,
    assembleBpicard := fun _ => fun _ => 2,
    assembleBnewton := fun _ => fun _ => 2,
    linSolve := fun _ b => b }

/-- Witness for C2: on the concrete non-convergent problem `be1`/`cfg1`,
both methods return with `du_norm` still above `tol_du` and the iteration
count equal to `maxiter`. -/
theorem C2_witness :
    (cfg1.tol_du < (picardRun be1 cfg1).2.1 ∧
      (picardRun be1 cfg1).2.2 = cfg1.maxiter) ∧
    (cfg1.tol_du < (newtonRun be1 cfg1).2.1 ∧
      (newtonRun be1 cfg1).2.2 = cfg1.maxiter) :=
  ⟨⟨by norm_num [picardRun, picardGo, picardStep, be1, cfg1, linf,
      List.ofFn_succ],
    (C2_maxiter_bound_silent be1 cfg1).2.1
      (by norm_num [picardRun, picardGo, picardStep, be1, cfg1, linf,
        List.ofFn_succ])⟩,
   ⟨by norm_num [newtonRun, newtonGo, newtonStep, be1, cfg1, linf,
      List.ofFn_succ],
    (C2_maxiter_bound_silent be1 cfg1).2.2.2
      (by norm_num [newtonRun, newtonGo, newtonStep, be1, cfg1, linf,
        List.ofFn_succ])⟩⟩

/-- C9 counterexample: the claim says a symmetry tag outside
`{vertical axis-symmetry, horizontal axis-symmetry, cylinder slice, none}`
is a fatal configuration error terminating setup.  On a 3-D mesh the code
never inspects the tag: setup completes with weight 1 even for an
unrecognized tag; and on a 2-D mesh the tag `none` (inside the claimed
recognized set) itself terminates setup. -/
theorem C9_counterexample :
    symSetup 3 "not a recognized tag" = SymSetup.weight SymFactor.one ∧
    symSetup 2 "none" = SymSetup.exits := by
  constructor <;> rfl

/-- C9 (amended): on a 2-D mesh, any symmetry tag outside
`{vertical axis-symmetry, horizontal axis-symmetry, cylinder slice}`
(the tag `none` included) causes `sys.exit()` during `__init__`, before any
matrix is assembled or any solve begins; on a 3-D mesh the tag is ignored
and the symmetry weight is the constant 1; the weight is also the constant
1 for a 2-D cylinder slice. -/
theorem C9_symmetry_dispatch (tag : String)
    (h0 : tag ≠ "vertical axis-symmetry")
    (h1 : tag ≠ "horizontal axis-symmetry")
    (h2 : tag ≠ "cylinder slice") :
    symSetup 2 tag = SymSetup.exits ∧
    symSetup 3 tag = SymSetup.weight SymFactor.one ∧
    symSetup 2 "cylinder slice" = SymSetup.weight SymFactor.one := by
  refine ⟨?_, rfl, rfl⟩
  simp [symSetup, h0, h1, h2]

/-- Witness for C9: the tag `none` is outside the three recognized 2-D tags,
terminates setup in 2-D, and is ignored in 3-D. -/
theorem C9_witness :
    symSetup 2 "none" = SymSetup.exits ∧
    symSetup 3 "none" = SymSetup.weight SymFactor.one ∧
    symSetup 2 "cylinder slice" = SymSetup.weight SymFactor.one :=
  C9_symmetry_dispatch "none" (by decide) (by decide) (by decide)

/-- With a zero direction vector the probed point never moves. -/
theorem probePoint_zero (o : List ℚ) (k : ℕ) :
    probePoint (List.replicate o.length 0) o k = o := by
  induction o with
  | nil => rfl
  | cons x l ih =>
    simp only [List.length_cons, List.replicate_succ, probePoint,
      List.zipWith_cons_cons]
    refine congrArg₂ _ (by ring) ?_
    simpa [probePoint] using ih

/-- With a zero direction vector and an in-range origin, the sampling loop
never terminates, whatever the fuel. -/
theorem probeGo_zero_dir (f : List ℚ → ℚ) (o : List ℚ) (L : ℚ)
    (hL : 0 < L) (ho : sqnorm o < L ^ 2) :
    ∀ (fuel k : ℕ) (rsq : ℚ) (acc : List ℚ), rsq < L ^ 2 →
      probeGo f (List.replicate o.length 0) o L fuel k rsq acc = none := by
  intro fuel
  induction fuel with
  | zero => intro k rsq acc _; rfl
  | succ fuel ih =>
    intro k rsq acc hr
    rw [probeGo, if_pos ⟨hL, hr⟩]
    exact ih (k + 1) _ _ (by rw [probePoint_zero]; exact ho)

/-- C10: with matching dimensions, a zero direction vector, and
`‖origin‖ < radial_limit`, the radial distance never changes and the
sampling loop of `probe_function` runs forever: the fuelled embedding
returns `none` for every fuel, so the prober is not total on these
spec-admissible inputs. -/
theorem C10_zero_direction_diverges (fuel dim : ℕ) (f : List ℚ → ℚ)
    (o : List ℚ) (L : ℚ) (ho : o.length = dim)
    (hlt : sqnorm o < L ^ 2) (hL : 0 < L) :
    probe_function fuel dim f (List.replicate dim 0) o L = none := by
  subst ho
  rw [probe_function, if_neg (by simp)]
  rw [probeGo_zero_dir f o L hL hlt fuel 0 0 []
    (by positivity)]
  rfl

/-- Witness for C10: probing with direction `[0, 0]` from the origin
`[0, 0]` with radial limit 1 diverges (here at fuel 7). -/
theorem C10_witness :
    probe_function 7 2 (fun _ => 0) (List.replicate 2 0) [0, 0] 1 = none :=
  C10_zero_direction_diverges 7 2 (fun _ => 0) [0, 0] 1 (by decide)
    (by norm_num [sqnorm]) (by norm_num)

/-- C6: if the direction vector or the origin does not match the mesh
dimension, `probe_function` stops at the dimension check with the
distinguished mismatch outcome (in the source: an error message is printed
and `None` is returned before the sampling loop starts).  The outcome is the
same for every probed function and carries no sample, so no backend point
evaluation is performed. -/
theorem C6_dim_mismatch (fuel dim : ℕ) (g o : List ℚ) (L : ℚ)
    (h : g.length ≠ dim ∨ o.length ≠ dim) :
    ∀ f : List ℚ → ℚ,
      probe_function fuel dim f g o L = some ProbeOutcome.dimMismatch := by
  intro f
  rw [probe_function, if_pos h]

/-- Witness for C6: a 3-component direction vector on a 2-D mesh is rejected
without any sample being taken. -/
theorem C6_witness :
    probe_function 5 2 (fun _ => 0) [1, 2, 3] [0, 0] 1 =
      some ProbeOutcome.dimMismatch :=
  C6_dim_mismatch 5 2 [1, 2, 3] [0, 0] 1 (by decide) (fun _ => 0)

/-! Invariants of the vertex scan in `measure_fifth_force`. -/

theorem measureLoop_spec (bd tol : ℚ) :
    ∀ (l : List Vertex) (m : ℚ) (p : Option (ℚ × ℚ × ℚ)),
      m ≤ (measureLoop bd tol l m p).1 ∧
      (∀ v ∈ l, vertexQualifies bd tol v →
        v.ffVal ≤ (measureLoop bd tol l m p).1) ∧
      (((measureLoop bd tol l m p).2 = p ∧
          (measureLoop bd tol l m p).1 = m) ∨
        ∃ v ∈ l, vertexQualifies bd tol v ∧
          v.ffVal = (measureLoop bd tol l m p).1 ∧
          (measureLoop bd tol l m p).2 = some (v.x, v.y, v.z))
  | [], m, p => ⟨le_refl m, by simp [measureLoop], Or.inl ⟨rfl, rfl⟩⟩
  | v :: rest, m, p => by
    by_cases hq : vertexQualifies bd tol v
    · by_cases hlt : m < v.ffVal
      · have ih := measureLoop_spec bd tol rest v.ffVal (some (v.x, v.y, v.z))
        rw [measureLoop, if_pos hq, if_pos hlt]
        refine ⟨le_of_lt (lt_of_lt_of_le hlt ih.1), ?_, ?_⟩
        · intro w hw hqw
          rcases List.mem_cons.mp hw with hw | hw
          · subst hw; exact ih.1
          · exact ih.2.1 w hw hqw
        · rcases ih.2.2 with ⟨h2, h1⟩ | ⟨w, hw, hqw, hval, hsome⟩
          · exact Or.inr ⟨v, List.mem_cons_self v rest, hq, h1.symm, h2⟩
          · exact Or.inr ⟨w, List.mem_cons_of_mem v hw, hqw, hval, hsome⟩
      · have ih := measureLoop_spec bd tol rest m p
        rw [measureLoop, if_pos hq, if_neg hlt]
        refine ⟨ih.1, ?_, ?_⟩
        · intro w hw hqw
          rcases List.mem_cons.mp hw with hw | hw
          · subst hw; exact le_trans (not_lt.mp hlt) ih.1
          · exact ih.2.1 w hw hqw
        · rcases ih.2.2 with h | ⟨w, hw, hqw, hval, hsome⟩
          · exact Or.inl h
          · exact Or.inr ⟨w, List.mem_cons_of_mem v hw, hqw, hval, hsome⟩
    · have ih := measureLoop_spec bd tol rest m p
      rw [measureLoop, if_neg hq]
      refine ⟨ih.1, ?_, ?_⟩
      · intro w hw hqw
        rcases List.mem_cons.mp hw with hw | hw
        · subst hw; exact absurd hqw hq
        · exact ih.2.1 w hw hqw
      · rcases ih.2.2 with h | ⟨w, hw, hqw, hval, hsome⟩
        · exact Or.inl h
        · exact Or.inr ⟨w, List.mem_cons_of_mem v hw, hqw, hval, hsome⟩

theorem measureLoop_no_update (bd tol : ℚ) :
    ∀ (l : List Vertex) (m : ℚ) (p : Option (ℚ × ℚ × ℚ)),
      (∀ v ∈ l, vertexQualifies bd tol v → v.ffVal ≤ m) →
      measureLoop bd tol l m p = (m, p)
  | [], _, _, _ => rfl
  | v :: rest, m, p, h => by
    by_cases hq : vertexQualifies bd tol v
    · rw [measureLoop, if_pos hq,
        if_neg (not_lt.mpr (h v (List.mem_cons_self v rest) hq))]
      exact measureLoop_no_update bd tol rest m p
        (fun w hw => h w (List.mem_cons_of_mem v hw))
    · rw [measureLoop, if_neg hq]
      exact measureLoop_no_update bd tol rest m p
        (fun w hw => h w (List.mem_cons_of_mem v hw))

/-- C5 counterexample: with `boundary_distance = 1` and `tol = 1`, a vertex
at distance exactly `1 - 1/2`, the left endpoint of the claimed half-open
band `[bd - tol/2, bd + tol/2)`, with gradient magnitude 5, does not qualify
in the code (the test on line 483 is strict) — `measure_fifth_force` finds
no vertex and raises, while the claim demands that this vertex qualify and
that its value 5 be returned. -/
theorem C5_counterexample :
    ((1 : ℚ) - 1 / 2 ≤ (Vertex.mk 0 0 0 (1 / 2) 5).dist ∧
      (Vertex.mk 0 0 0 (1 / 2) 5).dist < 1 + 1 / 2) ∧
    measure_fifth_force [Vertex.mk 0 0 0 (1 / 2) 5] 1 1 = none := by
  refine ⟨⟨by norm_num, by norm_num⟩, ?_⟩
  norm_num [measure_fifth_force, measureLoop, vertexQualifies]

/-- C5 (amended): a vertex qualifies exactly when its boundary distance lies
in the open interval `(boundary_distance - tol/2, boundary_distance + tol/2)`
(both comparisons on line 483-484 are strict), and whenever
`measure_fifth_force` returns a pair rather than raising, its value is the
largest gradient-magnitude value over all qualifying vertices and its point
is the coordinates of a qualifying vertex attaining that value. -/
theorem C5_open_band_max (vs : List Vertex) (bd tol val : ℚ)
    (pt : ℚ × ℚ × ℚ) (h : measure_fifth_force vs bd tol = some (val, pt)) :
    (∀ v ∈ vs, vertexQualifies bd tol v → v.ffVal ≤ val) ∧
    ∃ v ∈ vs, vertexQualifies bd tol v ∧ v.ffVal = val ∧
      (v.x, v.y, v.z) = pt := by
  have hs := measureLoop_spec bd tol vs 0 none
  rcases hr : (measureLoop bd tol vs 0 none).2 with _ | pt0
  · rw [measure_fifth_force, hr] at h
    exact absurd h (by simp)
  · rw [measure_fifth_force, hr] at h
    have hval : (measureLoop bd tol vs 0 none).1 = val := by
      injection h with h'
      exact congrArg Prod.fst h'
    have hpt : pt0 = pt := by
      injection h with h'
      exact congrArg Prod.snd h'
    subst hpt
    refine ⟨fun v hv hq => hval ▸ hs.2.1 v hv hq, ?_⟩
    rcases hs.2.2 with ⟨h2, _⟩ | ⟨w, hw, hqw, hwval, hwsome⟩
    · rw [hr] at h2; cases h2
    · rw [hr] at hwsome
      exact ⟨w, hw, hqw, hwval.trans hval, by injection hwsome with h''; rw [h'']⟩

/-- A two-vertex sub-mesh on which `measure_fifth_force` succeeds. -/
def vlist1 : List Vertex :=
  [Vertex.mk 1 2 3 1 5, Vertex.mk 4 5 6 (9/8) 7]

/-- Witness for C5: on `vlist1` with `boundary_distance = 1`, `tol = 1`, the
call returns the pair `(7, (4, 5, 6))`, which is the maximal gradient
magnitude over the qualifying vertices and the coordinates of the vertex
attaining it. -/
theorem C5_witness :
    (∀ v ∈ vlist1, vertexQualifies 1 1 v → v.ffVal ≤ 7) ∧
    ∃ v ∈ vlist1, vertexQualifies 1 1 v ∧ v.ffVal = 7 ∧
      (v.x, v.y, v.z) = ((4 : ℚ), (5 : ℚ), (6 : ℚ)) :=
  C5_open_band_max vlist1 1 1 7 (4, 5, 6)
    (by norm_num [measure_fifth_force, measureLoop, vertexQualifies, vlist1])

/-- C7 counterexample: the vertex at distance exactly `boundary_distance`
qualifies (under the code test and under the claimed band alike), but its
gradient-magnitude value 0 never exceeds the initial `fifth_force_max = 0.0`
(line 477), so `probe_point` stays `None` and the call raises even though a
qualifying vertex exists — refuting the claimed equivalence. -/
theorem C7_counterexample :
    vertexQualifies 1 1 (Vertex.mk 0 0 0 1 0) ∧
    ((1 : ℚ) - 1 / 2 ≤ (Vertex.mk 0 0 0 1 0).dist ∧
      (Vertex.mk 0 0 0 1 0).dist < 1 + 1 / 2) ∧
    measure_fifth_force [Vertex.mk 0 0 0 1 0] 1 1 = none := by
  refine ⟨⟨by norm_num, by norm_num⟩, ⟨by norm_num, by norm_num⟩, ?_⟩
  norm_num [measure_fifth_force, measureLoop, vertexQualifies]

/-- C7 (amended): `measure_fifth_force` raises the no-vertex exception if
and only if no vertex in the open tolerance band has a strictly positive
gradient-magnitude value; when at least one qualifying vertex has a positive
value, a `(value, point)` pair is returned. -/
theorem C7_fail_iff_no_positive (vs : List Vertex) (bd tol : ℚ) :
    measure_fifth_force vs bd tol = none ↔
      ∀ v ∈ vs, vertexQualifies bd tol v → v.ffVal ≤ 0 := by
  constructor
  · intro h
    have hs := measureLoop_spec bd tol vs 0 none
    rcases hr : (measureLoop bd tol vs 0 none).2 with _ | pt0
    · rcases hs.2.2 with ⟨_, h1⟩ | ⟨w, _, _, _, hwsome⟩
      · exact fun v hv hq => h1 ▸ hs.2.1 v hv hq
      · rw [hr] at hwsome; cases hwsome
    · rw [measure_fifth_force, hr] at h
      exact absurd h (by simp)
  · intro h
    rw [measure_fifth_force, measureLoop_no_update bd tol vs 0 none h]

/-! The derived-field cache: counterexample and corrected invariant. -/

/-- A trivial one-DOF calculation backend. -/
def cb1 : CalcBackend 1 :=
  { gradSolve := fun _ => fun _ => 0,
    gradMagSolve := fun _ => fun _ => 0,
    residualSolve := fun _ _ => fun _ => 0,
    laplacianSolve := fun _ => fun _ => 0,
    potDerivSolve := fun _ => fun _ => 0,
    interpolateP := fun _ => 0 }

/-- A state in which the field and the gradient-magnitude slot are already
computed. -/
def s0 : CacheState 1 :=
  { field := some (fun _ => 1), field_grad := none,
    field_grad_mag := some (fun _ => 1), residual := none,
    laplacian := none, potential_derivative := none, p_field := none,
    solveCount := 0 }

/-- C3 counterexample: with `field_grad_mag` already non-`None` (and no
intervening solve), invoking `calc_field_grad_mag` — the operation that
computes this slot (the claimed source symbol) — issues a new backend linear
solve: the method has no memoization guard of its own (lines 282-296 run
unconditionally), so the claimed "no recomputation" invariant fails on the
computing operations themselves. -/
theorem C3_counterexample :
    s0.field_grad_mag ≠ none ∧
    (calc_field_grad_mag be1 cb1 cfg1 s0).solveCount = s0.solveCount + 1 := by
  constructor
  · simp [s0]
  · simp [calc_field_grad_mag, s0]

theorem picardOp_field {m : ℕ} (be : Backend m) (cfg : SolverConfig)
    (s : CacheState m) :
    (picardOp be cfg s).field = some (picardRun be cfg).1 := rfl

theorem calc_field_grad_vector_keeps_field {m : ℕ} (be : Backend m)
    (cb : CalcBackend m) (cfg : SolverConfig) (s : CacheState m)
    (h : s.field ≠ none) :
    (calc_field_grad_vector be cb cfg s).field = s.field := by
  simp [calc_field_grad_vector, h]

/-- C3 (amended): the memoization lives at the call sites, not in the
`calc_*` methods: each guarded access (`if slot is None: calc_...()`, as in
`measure_fifth_force`, `plot_results`, `plot_residual_slice` and inside
`calc_field_residual`/`calc_laplacian`) leaves the state completely
unchanged — no backend linear solve issued, cached result returned as is —
whenever its slot is already non-`None`; a direct invocation of a `calc_*`
method, by contrast, always recomputes and issues a new backend solve (shown
here for `calc_field_grad_mag`); a new solve never clears cached slots. -/
theorem C3_guarded_cache {m : ℕ} (be : Backend m) (cb : CalcBackend m)
    (cfg : SolverConfig) (s : CacheState m) :
    (s.field_grad ≠ none → ensure_field_grad be cb cfg s = s) ∧
    (s.field_grad_mag ≠ none → ensure_field_grad_mag be cb cfg s = s) ∧
    (s.residual ≠ none → ensure_residual be cb cfg s = s) ∧
    (s.laplacian ≠ none → ensure_laplacian be cb cfg s = s) ∧
    (s.potential_derivative ≠ none →
      ensure_potential_derivative be cb cfg s = s) ∧
    (s.p_field ≠ none → ensure_p_field cb s = s) ∧
    (s.field ≠ none →
      (calc_field_grad_mag be cb cfg s).solveCount = s.solveCount + 1) := by
  refine ⟨fun h => ?_, fun h => ?_, fun h => ?_, fun h => ?_, fun h => ?_,
    fun h => ?_, fun h => ?_⟩
  · rw [ensure_field_grad, if_neg h]
  · rw [ensure_field_grad_mag, if_neg h]
  · rw [ensure_residual, if_neg h]
  · rw [ensure_laplacian, if_neg h]
  · rw [ensure_potential_derivative, if_neg h]
  · rw [ensure_p_field, if_neg h]
  · simp [calc_field_grad_mag, h]

/-- A state in which every cache slot is non-`None`. -/
def sFull : CacheState 1 :=
  { field := some (fun _ => 1), field_grad := some (fun _ => 1),
    field_grad_mag := some (fun _ => 1), residual := some (fun _ => 1),
    laplacian := some (fun _ => 1),
    potential_derivative := some (fun _ => 1),
    p_field := some (fun _ => 1), solveCount := 0 }

/-- Witness for C3: on the fully cached state, every guarded access is a
no-op and a direct `calc_field_grad_mag` still issues one more backend
solve. -/
theorem C3_witness :
    (ensure_field_grad be1 cb1 cfg1 sFull = sFull) ∧
    (ensure_field_grad_mag be1 cb1 cfg1 sFull = sFull) ∧
    (ensure_residual be1 cb1 cfg1 sFull = sFull) ∧
    (ensure_laplacian be1 cb1 cfg1 sFull = sFull) ∧
    (ensure_potential_derivative be1 cb1 cfg1 sFull = sFull) ∧
    (ensure_p_field cb1 sFull = sFull) ∧
    (calc_field_grad_mag be1 cb1 cfg1 sFull).solveCount =
      sFull.solveCount + 1 :=
  ⟨(C3_guarded_cache be1 cb1 cfg1 sFull).1 (by simp [sFull]),
   (C3_guarded_cache be1 cb1 cfg1 sFull).2.1 (by simp [sFull]),
   (C3_guarded_cache be1 cb1 cfg1 sFull).2.2.1 (by simp [sFull]),
   (C3_guarded_cache be1 cb1 cfg1 sFull).2.2.2.1 (by simp [sFull]),
   (C3_guarded_cache be1 cb1 cfg1 sFull).2.2.2.2.1 (by simp [sFull]),
   (C3_guarded_cache be1 cb1 cfg1 sFull).2.2.2.2.2.1 (by simp [sFull]),
   (C3_guarded_cache be1 cb1 cfg1 sFull).2.2.2.2.2.2 (by simp [sFull])⟩

/-- A state in which nothing has been computed yet. -/
def sEmpty : CacheState 1 :=
  { field := none, field_grad := none, field_grad_mag := none,
    residual := none, laplacian := none, potential_derivative := none,
    p_field := none, solveCount := 0 }

/-- C8 counterexample: `calc_density_field` invoked while `field` is `None`
does not trigger a Picard solve — the method (lines 383-396) contains no
check of `self.field` and issues no backend solve; the field slot stays
`None` and the solve counter is unchanged, refuting the claim for the sixth
operation. -/
theorem C8_counterexample :
    sEmpty.field = none ∧
    (calc_density_field cb1 sEmpty).field = none ∧
    (calc_density_field cb1 sEmpty).solveCount = sEmpty.solveCount :=
  ⟨rfl, rfl, rfl⟩

/-- C8 (amended): `calc_field_grad_vector`, `calc_field_grad_mag`,
`calc_field_residual` and `calc_potential_derivative` each first run a
Picard solve with the default configuration when `field` is `None`;
`calc_laplacian` does so only indirectly, through
`calc_field_grad_vector`, hence only when `field_grad` is also `None`;
`calc_density_field` never checks `field` and triggers no solve at all. -/
theorem C8_lazy_picard {m : ℕ} (be : Backend m) (cb : CalcBackend m)
    (cfg : SolverConfig) (s : CacheState m) :
    (s.field = none →
      (calc_field_grad_vector be cb cfg s).field =
        some (picardRun be cfg).1) ∧
    (s.field = none →
      (calc_field_grad_mag be cb cfg s).field = some (picardRun be cfg).1) ∧
    (s.field = none →
      (calc_field_residual be cb cfg s).field = some (picardRun be cfg).1) ∧
    (s.field = none →
      (calc_potential_derivative be cb cfg s).field =
        some (picardRun be cfg).1) ∧
    (s.field = none → s.field_grad = none →
      (calc_laplacian be cb cfg s).field = some (picardRun be cfg).1) ∧
    ((calc_density_field cb s).field = s.field ∧
      (calc_density_field cb s).solveCount = s.solveCount) := by
  refine ⟨fun h => ?_, fun h => ?_, fun h => ?_, fun h => ?_,
    fun h hg => ?_, rfl, rfl⟩
  · simp [calc_field_grad_vector, picardOp, h]
  · simp [calc_field_grad_mag, picardOp, h]
  · by_cases hg : s.field_grad = none <;>
      simp [calc_field_residual, calc_field_grad_vector, picardOp, h, hg]
  · simp [calc_potential_derivative, picardOp, h]
  · simp [calc_laplacian, calc_field_grad_vector, picardOp, h, hg]

/-! The prober sampling loop: exact characterization of the samples. -/

theorem probeGo_succ (f : List ℚ → ℚ) (g o : List ℚ) (L : ℚ)
    (fuel k : ℕ) (rsq : ℚ) (acc : List ℚ) :
    probeGo f g o L (fuel + 1) k rsq acc =
      if 0 < L ∧ rsq < L ^ 2 then
        probeGo f g o L fuel (k + 1) (sqnorm (probePoint g o (k + 1)))
          (acc ++ [f (probePoint g o k)])
      else some acc := rfl

/-- Running the sampling loop from step `j ≤ K`, where `K` is the first step
index `≥ 1` whose point is at or beyond the radial limit: with enough fuel
the loop returns the samples at steps `j, j+1, …, K-1`.  The `rsq` argument
reflects the code state: the literal `0` before the first pass (line 705)
and the squared norm of the current point afterwards. -/
theorem probeGo_run (f : List ℚ → ℚ) (g o : List ℚ) (L : ℚ) (K : ℕ)
    (hK : 1 ≤ K) (hL : 0 < L)
    (hlt : ∀ j, j < K → 1 ≤ j → sqnorm (probePoint g o j) < L ^ 2)
    (hge : L ^ 2 ≤ sqnorm (probePoint g o K)) :
    ∀ (fuel j : ℕ) (acc : List ℚ), j ≤ K → K - j < fuel →
      probeGo f g o L fuel j
        (if j = 0 then 0 else sqnorm (probePoint g o j)) acc =
        some (acc ++
          (List.range' j (K - j)).map (fun k => f (probePoint g o k))) := by
  intro fuel
  induction fuel with
  | zero => intro j acc hjK hf; omega
  | succ fuel ih =>
    intro j acc hjK hf
    rcases eq_or_lt_of_le hjK with rfl | hjlt
    · rw [if_neg (by omega : ¬ j = 0), probeGo_succ,
        if_neg (fun h => absurd h.2 (not_lt.mpr hge)), Nat.sub_self]
      simp
    · have hguard : (if j = 0 then (0 : ℚ)
          else sqnorm (probePoint g o j)) < L ^ 2 := by
        by_cases hj : j = 0
        · rw [if_pos hj]; exact pow_pos hL 2
        · rw [if_neg hj]; exact hlt j hjlt (by omega)
      rw [probeGo_succ, if_pos ⟨hL, hguard⟩]
      have step := ih (j + 1) (acc ++ [f (probePoint g o j)])
        (by omega) (by omega)
      rw [if_neg (Nat.succ_ne_zero j)] at step
      rw [step]
      congr 1
      rw [(by omega : K - j = (K - (j + 1)) + 1), List.range'_succ]
      simp

/-- C4 counterexample: with direction `[1/10, 0]`, origin `[1/2, 0]` and
radial limit `1/4`, the origin itself is already at radial distance
`1/2 ≥ 1/4`, so under the claim the sample sequence would contain no step at
all (no `k` lies strictly before the first out-of-range `k`, which is
`k = 0`); but `radius_distence` is initialized to the literal `0`
(line 705), so the code still takes the `k = 0` sample and returns one
value. -/
theorem C4_counterexample :
    (1 / 4 : ℚ) ^ 2 ≤ sqnorm (probePoint [1/10, 0] [1/2, 0] 0) ∧
    probe_function 5 2 (fun v => v.headD 0) [1/10, 0] [1/2, 0] (1/4) =
      some (ProbeOutcome.result [1/2]) := by
  have h := probeGo_run (fun v => v.headD 0) [1/10, 0] [1/2, 0] (1/4) 1
    (le_refl 1) (by norm_num) (fun j hj h1 => absurd hj (by omega))
    (by norm_num [sqnorm, probePoint]) 5 0 [] (Nat.zero_le 1) (by omega)
  refine ⟨by norm_num [sqnorm, probePoint], ?_⟩
  rw [probe_function, if_neg (by norm_num)]
  rw [if_pos rfl] at h
  rw [h]
  norm_num [probePoint]

/-- C4 (amended): with matching dimensions and a positive radial limit, let
`K` be the first step index `≥ 1` with `‖origin + K·direction‖ ≥
radial_limit` (such a `K` exists for every nonzero direction vector).  The
prober returns exactly the samples `f(origin + k·direction)` for the
consecutive steps `k = 0, 1, …, K-1`: the `k = 0` sample is always included
— even when `‖origin‖ ≥ radial_limit` — because the loop initializes the
radial distance to the literal `0` rather than to `‖origin‖`; all later
steps are exactly those strictly before `K`.  In particular direction
`[0.1, 0]`, origin `[0, 0]`, radial limit `0.25` yields exactly 3 samples,
at `k = 0, 1, 2`. -/
theorem C4_prober_samples (fuel dim : ℕ) (f : List ℚ → ℚ) (g o : List ℚ)
    (L : ℚ) (hg : g.length = dim) (ho : o.length = dim) (K : ℕ)
    (hK : 1 ≤ K) (hL : 0 < L)
    (hlt : ∀ j, j < K → 1 ≤ j → sqnorm (probePoint g o j) < L ^ 2)
    (hge : L ^ 2 ≤ sqnorm (probePoint g o K)) (hfuel : K < fuel) :
    probe_function fuel dim f g o L =
      some (ProbeOutcome.result
        ((List.range K).map (fun k => f (probePoint g o k)))) := by
  rw [probe_function, if_neg (by simp [hg, ho])]
  have h := probeGo_run f g o L K hK hL hlt hge fuel 0 []
    (Nat.zero_le K) (by omega)
  rw [if_pos rfl] at h
  rw [h, List.range_eq_range']
  simp

/-- Witness for C4: the boundary instance from the spec — direction
`[1/10, 0]`, origin `[0, 0]`, radial limit `1/4` — yields exactly the 3
samples at steps `k = 0, 1, 2`. -/
theorem C4_witness :
    probe_function 5 2 (fun v => v.headD 0) [1/10, 0] [0, 0] (1/4) =
      some (ProbeOutcome.result [0, 1/10, 1/5]) := by
  have h := C4_prober_samples 5 2 (fun v => v.headD 0) [1/10, 0] [0, 0]
    (1/4) (by decide) (by decide) 3 (by decide) (by norm_num)
    (by intro j hj h1; interval_cases j <;> norm_num [sqnorm, probePoint])
    (by norm_num [sqnorm, probePoint]) (by decide)
  rw [h]
  norm_num [probePoint, List.range_succ]

/-- Witness for C8: on the empty state each of the five field-dependent
operations stores the Picard field, while the density operation leaves the
field slot `None`. -/
theorem C8_witness :
    ((calc_field_grad_vector be1 cb1 cfg1 sEmpty).field =
      some (picardRun be1 cfg1).1) ∧
    ((calc_field_grad_mag be1 cb1 cfg1 sEmpty).field =
      some (picardRun be1 cfg1).1) ∧
    ((calc_field_residual be1 cb1 cfg1 sEmpty).field =
      some (picardRun be1 cfg1).1) ∧
    ((calc_potential_derivative be1 cb1 cfg1 sEmpty).field =
      some (picardRun be1 cfg1).1) ∧
    ((calc_laplacian be1 cb1 cfg1 sEmpty).field =
      some (picardRun be1 cfg1).1) ∧
    (calc_density_field cb1 sEmpty).field = none :=
  ⟨(C8_lazy_picard be1 cb1 cfg1 sEmpty).1 rfl,
   (C8_lazy_picard be1 cb1 cfg1 sEmpty).2.1 rfl,
   (C8_lazy_picard be1 cb1 cfg1 sEmpty).2.2.1 rfl,
   (C8_lazy_picard be1 cb1 cfg1 sEmpty).2.2.2.1 rfl,
   (C8_lazy_picard be1 cb1 cfg1 sEmpty).2.2.2.2.1 rfl rfl,
   (C8_lazy_picard be1 cb1 cfg1 sEmpty).2.2.2.2.2.1⟩

/-! C1: constant density makes the uniform initial guess an exact fixed
point of both iterations. -/

theorem foldr_max_zero :
    ∀ l : List ℚ, (∀ x ∈ l, x = 0) → l.foldr max 0 = 0
  | [], _ => rfl
  | x :: xs, h => by
    rw [List.foldr_cons,
      foldr_max_zero xs (fun y hy => h y (List.mem_cons_of_mem x hy)),
      h x (List.mem_cons_self x xs)]
    exact max_self 0

theorem linf_eq_zero {m : ℕ} (v : Fin m → ℚ) (h : ∀ i, v i = 0) :
    linf v = 0 := by
  refine foldr_max_zero _ ?_
  intro x hx
  obtain ⟨i, hi⟩ := (List.mem_ofFn _ x).mp hx
  rw [← hi]
  show |v i| = 0
  rw [h i, abs_zero]

theorem picardGo_stop {m : ℕ} (be : Backend m) (cfg : SolverConfig)
    (fuel : ℕ) (phi : Fin m → ℚ) (dn : ℚ) (i : ℕ)
    (h : ¬ cfg.tol_du < dn) :
    picardGo be cfg fuel phi dn i = (phi, dn, i) := by
  cases fuel with
  | zero => rfl
  | succ fuel => rw [picardGo_succ, if_neg h]

theorem newtonGo_stop {m : ℕ} (be : Backend m) (cfg : SolverConfig)
    (fuel : ℕ) (phi : Fin m → ℚ) (dn : ℚ) (i : ℕ)
    (h : ¬ cfg.tol_du < dn) :
    newtonGo be cfg fuel phi dn i = (phi, dn, i) := by
  cases fuel with
  | zero => rfl
  | succ fuel => rw [newtonGo_succ, if_neg h]

/-- C1: with a spatially constant density `ρ = ρ₀` the initial guess
`field_min = density_max ** (-1/(n+1)) = ρ₀ ** (-1/(n+1))` — characterized
over ℚ by `field_min > 0` and `field_min^(n+1) · ρ₀ = 1`, and unique as such
(last conjunct) — is an exact fixed point of both iterations, and both
`picard` and `newton` return the uniform field `field_min` with final
`du_norm ≤ tol_du`.  The hypotheses on `be` record what FEniCS assembly
yields on a constant field and constant density: the stiffness matrix
annihilates constants; `A1`, `B` and `P` reduce to the stated multiples of
the mass matrix and of the weight vector `M·1`; and the Krylov solve is
exact on solvable systems. -/
theorem C1_constant_density_fixed_point {m : ℕ} (be : Backend m)
    (cfg : SolverConfig) (rho0 : ℚ)
    (_halpha : 0 < cfg.alpha) (htol : 0 < cfg.tol_du)
    (hmax : 1 ≤ cfg.maxiter) (hc : 0 < cfg.field_min)
    (hfm : cfg.field_min ^ (cfg.n + 1) * rho0 = 1)
    (hA0 : be.A0.mulVec (fun _ => cfg.field_min) = 0)
    (hA1 : be.assembleA1 (fun _ => cfg.field_min) =
      (((cfg.n : ℚ) + 1) * (cfg.field_min ^ (cfg.n + 2))⁻¹) • be.M)
    (hBp : be.assembleBpicard (fun _ => cfg.field_min) =
      (((cfg.n : ℚ) + 2) * (cfg.field_min ^ (cfg.n + 1))⁻¹) •
        be.M.mulVec (fun _ => 1))
    (hBn : be.assembleBnewton (fun _ => cfg.field_min) =
      ((cfg.field_min ^ (cfg.n + 1))⁻¹) • be.M.mulVec (fun _ => 1))
    (hP : be.P = rho0 • be.M.mulVec (fun _ => 1))
    (hsolve : ∀ u : Fin m → ℚ,
      be.linSolve
        (cfg.alpha • be.A0 + be.assembleA1 (fun _ => cfg.field_min))
        ((cfg.alpha • be.A0 +
          be.assembleA1 (fun _ => cfg.field_min)).mulVec u) = u) :
    ((picardRun be cfg).1 = fun _ => cfg.field_min) ∧
    (picardRun be cfg).2.1 ≤ cfg.tol_du ∧
    ((newtonRun be cfg).1 = fun _ => cfg.field_min) ∧
    (newtonRun be cfg).2.1 ≤ cfg.tol_du ∧
    (∀ x : ℚ, 0 < x → x ^ (cfg.n + 1) * rho0 = 1 → x = cfg.field_min) := by
  set c := cfg.field_min with hcdef
  set n := cfg.n with hndef
  have hc0 : c ≠ 0 := ne_of_gt hc
  have hcp : c ^ (n + 1) ≠ 0 := pow_ne_zero _ hc0
  have hrho : rho0 = (c ^ (n + 1))⁻¹ := (inv_eq_of_mul_eq_one_right hfm).symm
  have hrho0 : rho0 ≠ 0 := by
    rw [hrho]; exact inv_ne_zero hcp
  -- the system matrix applied to the constant field
  have hMc : be.M.mulVec (fun _ : Fin m => c) =
      c • be.M.mulVec (fun _ => 1) := by
    rw [show (fun _ : Fin m => c) = c • (fun _ : Fin m => (1 : ℚ)) from
      funext fun i => by simp, Matrix.mulVec_smul]
  have hSc : (cfg.alpha • be.A0 + be.assembleA1 (fun _ => c)).mulVec
      (fun _ => c) =
      fun j => be.assembleBpicard (fun _ => c) j - be.P j := by
    funext j
    rw [Matrix.add_mulVec, Matrix.smul_mulVec_assoc, hA0, smul_zero,
      Pi.add_apply, Pi.zero_apply, zero_add, hA1,
      Matrix.smul_mulVec_assoc, hMc, hBp, hP]
    simp only [Pi.smul_apply, smul_eq_mul]
    have hscal : ((n : ℚ) + 1) * (c ^ (n + 2))⁻¹ * c =
        ((n : ℚ) + 2) * (c ^ (n + 1))⁻¹ - rho0 := by
      rw [hrho, pow_succ c (n + 1)]
      field_simp
      ring
    calc ((n : ℚ) + 1) * (c ^ (n + 2))⁻¹ *
          (c * (be.M.mulVec (fun _ => 1)) j)
        = (((n : ℚ) + 1) * (c ^ (n + 2))⁻¹ * c) *
            (be.M.mulVec (fun _ => 1)) j := by ring
      _ = (((n : ℚ) + 2) * (c ^ (n + 1))⁻¹ - rho0) *
            (be.M.mulVec (fun _ => 1)) j := by rw [hscal]
      _ = ((n : ℚ) + 2) * (c ^ (n + 1))⁻¹ *
            (be.M.mulVec (fun _ => 1)) j -
          rho0 * (be.M.mulVec (fun _ => 1)) j := by ring
  -- the Picard step fixes the constant field
  have hpstep : picardStep be cfg (fun _ => c) = (fun _ => c, 0) := by
    simp only [picardStep]
    have hu : be.linSolve
        (cfg.alpha • be.A0 + be.assembleA1 (fun _ => c))
        (fun j => be.assembleBpicard (fun _ => c) j - be.P j) =
        fun _ => c := by
      rw [← hSc]; exact hsolve _
    rw [hu]
    refine Prod.ext ?_ ?_
    · funext j; ring
    · exact linf_eq_zero _ (fun i => sub_self c)
  -- the Newton step fixes the constant field
  have hnstep : newtonStep be cfg (fun _ => c) = (fun _ => c, 0) := by
    simp only [newtonStep]
    have hz : (fun j => be.assembleBnewton (fun _ => c) j - be.P j) =
        (cfg.alpha • be.A0 + be.assembleA1 (fun _ => c)).mulVec
          (0 : Fin m → ℚ) := by
      funext j
      rw [Matrix.mulVec_zero, hBn, hP, hrho]
      simp
    have hu : be.linSolve
        (cfg.alpha • be.A0 + be.assembleA1 (fun _ => c))
        (fun j => be.assembleBnewton (fun _ => c) j - be.P j) =
        (0 : Fin m → ℚ) := by
      rw [hz]; exact hsolve _
    rw [hu]
    refine Prod.ext ?_ ?_
    · funext j; simp
    · exact linf_eq_zero _ (fun i => rfl)
  obtain ⟨fm, hfmx⟩ : ∃ fm, cfg.maxiter = fm + 1 :=
    ⟨cfg.maxiter - 1, by omega⟩
  have hnot0 : ¬ cfg.tol_du < 0 := not_lt.mpr (le_of_lt htol)
  have hpicard : (picardRun be cfg).1 = (fun _ => c) ∧
      (picardRun be cfg).2.1 ≤ cfg.tol_du := by
    by_cases h1 : cfg.tol_du < 1
    · rw [picardRun, hfmx, picardGo_succ, if_pos h1, hpstep,
        picardGo_stop be cfg fm _ 0 1 hnot0]
      exact ⟨rfl, le_of_lt htol⟩
    · rw [picardRun, picardGo_stop be cfg _ _ 1 0 h1]
      exact ⟨rfl, not_lt.mp h1⟩
  have hnewton : (newtonRun be cfg).1 = (fun _ => c) ∧
      (newtonRun be cfg).2.1 ≤ cfg.tol_du := by
    by_cases h1 : cfg.tol_du < 1
    · rw [newtonRun, hfmx, newtonGo_succ, if_pos h1, hnstep,
        newtonGo_stop be cfg fm _ 0 1 hnot0]
      exact ⟨rfl, le_of_lt htol⟩
    · rw [newtonRun, newtonGo_stop be cfg _ _ 1 0 h1]
      exact ⟨rfl, not_lt.mp h1⟩
  refine ⟨hpicard.1, hpicard.2, hnewton.1, hnewton.2, ?_⟩
  intro x hx hxe
  have hpow : x ^ (n + 1) = c ^ (n + 1) :=
    mul_right_cancel₀ hrho0 (hxe.trans hfm.symm)
  rcases lt_trichotomy x c with hlt | heq | hgt
  · exact absurd hpow
      (ne_of_lt (pow_lt_pow_left₀ hlt (le_of_lt hx) (Nat.succ_ne_zero n)))
  · exact heq
  · exact absurd hpow.symm
      (ne_of_lt (pow_lt_pow_left₀ hgt (le_of_lt hc) (Nat.succ_ne_zero n)))

/-- The constant-density one-DOF configuration: `n = 0`, `alpha = 1`,
`ρ₀ = 1`, so `field_min = 1 ** (-1/1) = 1`. -/
def cfg2 : SolverConfig :=
  { alpha := 1, n := 0, relaxation_parameter := 1, tol_du := 1/2,
    tol_rel_du := 1/2, maxiter := 1, field_min := 1 }

/-- The one-DOF backend for the constant-density problem with `ρ₀ = 1`:
unit mass matrix, zero stiffness, and the assembled quantities evaluated at
the constant field 1; the linear solve returns the right-hand side, which is
exact because the system matrix is the identity. -/
def be2 : Backend 1 :=
  { M := 1, A0 := 0, P := fun _ => 1,
    assembleA1 := fun _ => 1,
    assembleBpicard := fun _ => fun _ => 2,
    assembleBnewton := fun _ => fun _ => 1,
    linSolve := fun _ b => b }

/-- Witness for C1: on the concrete constant-density problem `be2`/`cfg2`
(`ρ₀ = 1`, `n = 0`), both methods return the uniform field `field_min = 1`
within `tol_du`, and `field_min` is the unique positive rational whose
`(n+1)`-st power times `ρ₀` is 1. -/
theorem C1_witness :
    ((picardRun be2 cfg2).1 = fun _ => cfg2.field_min) ∧
    (picardRun be2 cfg2).2.1 ≤ cfg2.tol_du ∧
    ((newtonRun be2 cfg2).1 = fun _ => cfg2.field_min) ∧
    (newtonRun be2 cfg2).2.1 ≤ cfg2.tol_du ∧
    (∀ x : ℚ, 0 < x → x ^ (cfg2.n + 1) * 1 = 1 → x = cfg2.field_min) :=
  C1_constant_density_fixed_point be2 cfg2 1
    (by norm_num [cfg2]) (by norm_num [cfg2]) (by norm_num [cfg2])
    (by norm_num [cfg2]) (by norm_num [cfg2])
    (by show (0 : Matrix (Fin 1) (Fin 1) ℚ).mulVec _ = 0
        rw [Matrix.zero_mulVec])
    (by rw [show (((cfg2.n : ℚ) + 1) *
          (cfg2.field_min ^ (cfg2.n + 2))⁻¹) = 1 from by norm_num [cfg2],
        one_smul]
        rfl)
    (by funext j
        show (2 : ℚ) = ((((cfg2.n : ℚ) + 2) *
          (cfg2.field_min ^ (cfg2.n + 1))⁻¹) •
            be2.M.mulVec (fun _ => 1)) j
        rw [Pi.smul_apply, show be2.M.mulVec (fun _ => (1 : ℚ)) =
          fun _ => 1 from Matrix.one_mulVec _]
        norm_num [cfg2])
    (by funext j
        show (1 : ℚ) = (((cfg2.field_min ^ (cfg2.n + 1))⁻¹) •
            be2.M.mulVec (fun _ => 1)) j
        rw [Pi.smul_apply, show be2.M.mulVec (fun _ => (1 : ℚ)) =
          fun _ => 1 from Matrix.one_mulVec _]
        norm_num [cfg2])
    (by funext j
        show (1 : ℚ) = ((1 : ℚ) • be2.M.mulVec (fun _ => 1)) j
        rw [Pi.smul_apply, show be2.M.mulVec (fun _ => (1 : ℚ)) =
          fun _ => 1 from Matrix.one_mulVec _]
        norm_num)
    (by intro u
        show (cfg2.alpha • be2.A0 + be2.assembleA1 _).mulVec u = u
        have h1 : cfg2.alpha • be2.A0 +
            be2.assembleA1 (fun _ => cfg2.field_min) = 1 := by
          show (1 : ℚ) • (0 : Matrix (Fin 1) (Fin 1) ℚ) + 1 = 1
          rw [smul_zero, zero_add]
        rw [h1, Matrix.one_mulVec])

end SELCIE
